import Mathlib

/-!
Verification development for the invoice-validation engine in
`src/backend/validar_factura.py` (functions `parse_numeric`, `es_fecha_valida`,
`validar_campos_principales`, `validar_items`, `validar_factura`).

Modelling conventions, chosen to stay faithful to the Python source while
keeping every definition kernel-computable:

* Python floats are modelled by exact decimal numbers `PyFloat` (value
  `n / 10 ^ e`).  Every number the engine manipulates is created from a
  decimal literal in the input, so within the monetary magnitudes the
  engine is about, IEEE-754 rounding, overflow to infinity for
  astronomically long digit strings, and the `inf`/`nan` float literals
  (reachable only through inputs such as `",inf"`) are outside the model;
  `float(...)` on a string is modelled by `floatOfChars`, which implements
  CPython's finite float-literal grammar (sign, underscores between
  digits, optional fraction and exponent).
* Strings are ASCII-faithful: `str.strip`, `str.lower`, `str.upper` and the
  regex classes `\d`, `[A-Za-z]` are modelled on ASCII characters
  (CPython additionally handles Unicode digits/whitespace, which no claim
  exercises).
* `str()` of a float is modelled by `numRepr`, which prints the exact
  decimal value in positional notation.  CPython prints the same digits
  for monetary-scale values and switches to scientific notation only
  below 1e-4 or at/above 1e16, magnitudes outside the claims.
* Scalar JSON values are `JVal` (null, string, number).  List- or
  object-valued header fields are outside the value universe: every
  format check in the source turns them into errors just like any other
  non-matching `str()` image, and no claim exercises them.
* A validation error is modelled by its field label (`campo`) plus the
  identity of the rule that fired (`EKind`).  The Spanish `motivo` and
  `sugerencia` texts are fixed data attached to each emission site and
  are quantified over by no claim, so they are not carried.
* Python local variables `qty_val`, `price_val`, `subtotal_val` of
  `validar_items` persist across loop iterations; `'x' in locals()` is
  modelled by an `Option (Option PyFloat)` per variable (`none` = never
  assigned, `some v` = assigned, where `v = none` models Python `None`).
  The bare `except` around the accumulation step catches the
  `UnboundLocalError` raised when `subtotal_val` was never assigned.
* `round(x, 2)` is modelled as exact round-half-to-even at two decimals,
  and the tolerance literal `0.01` as the exact `1/100`.
-/

/-- Exact decimal number: the value `n / 10 ^ e`.  Models the Python floats
the engine manipulates (all created from decimal literals). -/
structure PyFloat where
  n : Int
  e : Nat
deriving DecidableEq, Repr

/-- Numerator of `a` rescaled to the common scale `m` (intended `a.e ≤ m`). -/
def PyFloat.scaleTo (a : PyFloat) (m : Nat) : Int :=
  a.n * 10 ^ (m - a.e)

/-- Addition of exact decimals (models float `+` on monetary values). -/
def PyFloat.add (a b : PyFloat) : PyFloat :=
  ⟨a.scaleTo (max a.e b.e) + b.scaleTo (max a.e b.e), max a.e b.e⟩

/-- Subtraction of exact decimals (models float `-`). -/
def PyFloat.sub (a b : PyFloat) : PyFloat :=
  ⟨a.scaleTo (max a.e b.e) - b.scaleTo (max a.e b.e), max a.e b.e⟩

/-- Multiplication of exact decimals (models float `*`). -/
def PyFloat.mul (a b : PyFloat) : PyFloat :=
  ⟨a.n * b.n, a.e + b.e⟩

/-- Absolute value (models Python `abs`). -/
def PyFloat.absD (a : PyFloat) : PyFloat :=
  ⟨|a.n|, a.e⟩

/-- Value comparison `a > b` (models float `>`). -/
def PyFloat.bgt (a b : PyFloat) : Bool :=
  b.scaleTo (max a.e b.e) < a.scaleTo (max a.e b.e)

/-- Whether the value is an integer; models `x == int(x)` on a float
(`int` truncates, and a float equals its truncation exactly when its
value is integral). -/
def PyFloat.isIntVal (a : PyFloat) : Bool :=
  a.n % ((10 : Int) ^ a.e) = 0

/-- Round-half-to-even of `n / d` for `d > 0`; models Python `round` on
the exact value. -/
def roundHalfEven (n d : Int) : Int :=
  let q := Int.fdiv n d
  let r := n - q * d
  if 2 * r < d then q
  else if d < 2 * r then q + 1
  else if q % 2 = 0 then q else q + 1

/-- Models Python `round(x, 2)`. -/
def PyFloat.round2 (a : PyFloat) : PyFloat :=
  if a.e ≤ 2 then ⟨a.n * 10 ^ (2 - a.e), 2⟩
  else ⟨roundHalfEven a.n (10 ^ (a.e - 2)), 2⟩

/-- The rational value denoted by a `PyFloat` (used to state theorems in
ordinary arithmetic). -/
def PyFloat.toRat (a : PyFloat) : ℚ :=
  (a.n : ℚ) / 10 ^ a.e

/-- The tolerance literal `0.01` of the source. -/
def tolDec : PyFloat := ⟨1, 2⟩

/-- Python `str.strip()` whitespace (ASCII part). -/
def pyWs (c : Char) : Bool :=
  c = ' ' ∨ c = '\t' ∨ c = '\n' ∨ c = '\x0d' ∨ c = '\x0b' ∨ c = '\x0c'

/-- Models `str.strip()` on the character list. -/
def trimChars (cs : List Char) : List Char :=
  ((cs.dropWhile pyWs).reverse.dropWhile pyWs).reverse

/-- ASCII lower-casing of one character (models `str.lower`). -/
def lowChar (c : Char) : Char :=
  if 65 ≤ c.toNat ∧ c.toNat ≤ 90 then Char.ofNat (c.toNat + 32) else c

/-- ASCII upper-casing of one character (models `str.upper`). -/
def upChar (c : Char) : Char :=
  if 97 ≤ c.toNat ∧ c.toNat ≤ 122 then Char.ofNat (c.toNat - 32) else c

/-- ASCII decimal digit (regex `\d` on ASCII). -/
def isDig (c : Char) : Bool :=
  48 ≤ c.toNat ∧ c.toNat ≤ 57

/-- ASCII letter (regex `[A-Za-z]`). -/
def isAsciiAlpha (c : Char) : Bool :=
  (65 ≤ c.toNat ∧ c.toNat ≤ 90) ∨ (97 ≤ c.toNat ∧ c.toNat ≤ 122)

/-- Helper for `splitOnChar`. -/
def splitOnCharAux (c : Char) : List Char → List Char → List (List Char)
  | [], acc => [acc.reverse]
  | x :: xs, acc =>
    if x = c then acc.reverse :: splitOnCharAux c xs []
    else splitOnCharAux c xs (x :: acc)

/-- Models Python `s.split(c)` for a one-character separator. -/
def splitOnChar (cs : List Char) (c : Char) : List (List Char) :=
  splitOnCharAux c cs []

/-- Models Python `s.rfind(c)`: index of the last occurrence, `-1` if none. -/
def lastIndexOf (cs : List Char) (c : Char) : Int :=
  (cs.foldl (fun (st : Int × Int) ch =>
    (st.1 + 1, if ch = c then st.1 else st.2)) ((0 : Int), (-1 : Int))).2

/-- Numeric value of a digit character. -/
def digVal (c : Char) : Nat := c.toNat - 48

/-- Continuation of a CPython `digitpart` (`digit (["_"] digit)*`): consumes
the whole remainder, accumulating the value and the number of digits;
fails on misplaced underscores or non-digits. -/
def digitsRest (acc cnt : Nat) : List Char → Option (Nat × Nat)
  | [] => some (acc, cnt)
  | c :: rest =>
    if c = '_' then
      match rest with
      | d :: rest2 =>
        if isDig d then digitsRest (10 * acc + digVal d) (cnt + 1) rest2 else none
      | [] => none
    else if isDig c then digitsRest (10 * acc + digVal c) (cnt + 1) rest else none

/-- A full CPython `digitpart`: value and digit count, or failure. -/
def digitsVal : List Char → Option (Nat × Nat)
  | [] => none
  | c :: rest => if isDig c then digitsRest (digVal c) 1 rest else none

/-- Mantissa of a float literal (`digitpart`, `digitpart "."
[digitpart]`, or `"." digitpart`): unsigned numerator and decimal scale. -/
def floatMantissa (m : List Char) : Option (Nat × Nat) :=
  match splitOnChar m '.' with
  | [ip] => (digitsVal ip).map (fun p => (p.1, 0))
  | [ip, fp] =>
    if ip = [] then (digitsVal fp).map (fun p => (p.1, p.2))
    else if fp = [] then (digitsVal ip).map (fun p => (p.1, 0))
    else
      match digitsVal ip, digitsVal fp with
      | some (iv, _), some (fv, k) => some (iv * 10 ^ k + fv, k)
      | _, _ => none
  | _ => none

/-- Exponent part of a float literal (optional sign then a `digitpart`). -/
def floatExponent (p : List Char) : Option Int :=
  match p with
  | [] => none
  | c :: r =>
    if c = '+' then (digitsVal r).map (fun q => (q.1 : Int))
    else if c = '-' then (digitsVal r).map (fun q => -(q.1 : Int))
    else (digitsVal (c :: r)).map (fun q => (q.1 : Int))

/-- Assembles a `PyFloat` from signed numerator, scale, and exponent. -/
def mkPyFloat (n : Int) (k : Nat) (ex : Int) : PyFloat :=
  if 0 ≤ ex then ⟨n * 10 ^ ex.toNat, k⟩ else ⟨n, k + (-ex).toNat⟩

/-- The optional sign of a float literal and the remaining characters. -/
def floatSign : List Char → Int × List Char
  | [] => (1, [])
  | c :: r =>
    if c = '+' then (1, r)
    else if c = '-' then (-1, r)
    else (1, c :: r)

/-- Models CPython `float(s)` on an already-stripped string (finite
literals: optional sign, underscore-grouped digits, optional fraction,
optional exponent; the special names `inf` / `nan` are outside the exact
decimal model). -/
def floatOfChars (cs0 : List Char) : Option PyFloat :=
  let sgnRest := floatSign cs0
  let parts := splitOnChar (sgnRest.2.map (fun c => if c = 'E' then 'e' else c)) 'e'
  match parts with
  | [m] => (floatMantissa m).map (fun p => mkPyFloat (sgnRest.1 * p.1) p.2 0)
  | [m, ex] =>
    match floatMantissa m, floatExponent ex with
    | some (n, k), some e => some (mkPyFloat (sgnRest.1 * n) k e)
    | _, _ => none
  | _ => none

/-- Replaces `,` by `.` (used by `parse_numeric`'s decimal-comma paths). -/
def commaToDot (c : Char) : Char :=
  if c = ',' then '.' else c

/-- Models the regex `re.fullmatch(r'-?\d+', s)` (ASCII digits). -/
def intRegexMatch (cs : List Char) : Bool :=
  match cs with
  | [] => false
  | c :: r => if c = '-' then r ≠ [] ∧ r.all isDig else (c :: r).all isDig

/-- Scalar JSON value: Python `None`, a string, or a number. -/
inductive JVal where
  | vnone : JVal
  | vstr : String → JVal
  | vnum : PyFloat → JVal
deriving DecidableEq, Repr

/-- Canonical form of an exact decimal: divide out trailing factors of 10
(the representation Python's shortest-roundtrip `str` prints). -/
def canonDec : Int → Nat → Int × Nat
  | n, 0 => (n, 0)
  | n, e + 1 => if n % 10 = 0 then canonDec (n / 10) e else (n, e + 1)

/-- Models Python `str()` of a float: exact positional decimal, with `.0`
appended to integral values (CPython's output for monetary magnitudes). -/
def numRepr (q : PyFloat) : String :=
  let ce := canonDec q.n q.e
  let sgn : String := if ce.1 < 0 then "-" else ""
  let ds := Nat.repr ce.1.natAbs
  if ce.2 = 0 then sgn ++ ds ++ (".0" : String)
  else if ce.2 < ds.data.length then
    sgn ++ (⟨ds.data.take (ds.data.length - ce.2)⟩ : String) ++ ("." : String)
      ++ (⟨ds.data.drop (ds.data.length - ce.2)⟩ : String)
  else
    sgn ++ ("0." : String) ++ (⟨List.replicate (ce.2 - ds.data.length) '0'⟩ : String) ++ ds

/-- Models Python `str()` on a scalar value. -/
def pyStr : JVal → String
  | .vnone => "None"
  | .vstr s => s
  | .vnum q => numRepr q

/-- Python truthiness of a scalar value (`None`, `""` and `0.0` are falsy). -/
def truthy : JVal → Bool
  | .vnone => false
  | .vstr s => s ≠ ""
  | .vnum q => q.n ≠ 0

/-- Source `parse_numeric` (lines 26-87): locale-ambiguous numeric parsing.
A numeric input goes through `str()` and is re-parsed; for the exact
decimals of the model that round-trip is the identity, so it is modelled
directly. -/
def parse_numeric (v : JVal) : Option PyFloat :=
  match v with
  | .vnone => none
  | .vnum q => some q
  | .vstr s0 =>
    let s := trimChars s0.data
    if s = [] then none
    else
      let dotCount := s.count '.'
      let commaCount := s.count ','
      if 0 < commaCount ∧ 0 < dotCount then
        if lastIndexOf s '.' < lastIndexOf s ',' then
          floatOfChars ((s.filter (fun c => c ≠ '.')).map commaToDot)
        else
          floatOfChars (s.filter (fun c => c ≠ ','))
      else if 0 < commaCount then
        match splitOnChar s ',' with
        | [_, fp] =>
          if fp.length ≤ 2 then floatOfChars (s.map commaToDot)
          else floatOfChars (s.filter (fun c => c ≠ ','))
        | _ => floatOfChars (s.filter (fun c => c ≠ ','))
      else if 0 < dotCount then
        floatOfChars s
      else if intRegexMatch s then floatOfChars s
      else none

/-- Source `esta_vacio` (defined identically at lines 134-142 and 294-301):
absent, or a string whose trimmed lower-case form is `""`, `"n/a"`, `"na"`
or `"none"`. -/
def esta_vacio (v : JVal) : Bool :=
  match v with
  | .vnone => true
  | .vstr s =>
    let t := trimChars s.data
    t = [] ∨ (t.map lowChar = "n/a".data ∨ t.map lowChar = "na".data ∨ t.map lowChar = "none".data)
  | .vnum _ => false

/-- A 1-2 digit day/month component as accepted by `strptime` (`%d` / `%m`
match one or two digits whose value lies in the directive's range). -/
def comp12 (cs : List Char) (hi : Nat) : Option Nat :=
  match digitsVal cs with
  | some (v, _) =>
    if cs.all isDig ∧ (cs.length = 1 ∨ cs.length = 2) ∧ 1 ≤ v ∧ v ≤ hi then some v else none
  | none => none

/-- A 4-digit year component (`%Y` matches exactly four digits). -/
def year4 (cs : List Char) : Option Nat :=
  match digitsVal cs with
  | some (v, _) => if cs.all isDig ∧ cs.length = 4 then some v else none
  | none => none

/-- Gregorian leap year. -/
def esBisiesto (y : Nat) : Bool :=
  y % 4 = 0 ∧ (y % 100 ≠ 0 ∨ y % 400 = 0)

/-- Days in a month. -/
def diasMes (y m : Nat) : Nat :=
  if m = 2 then (if esBisiesto y then 29 else 28)
  else if m = 4 ∨ m = 6 ∨ m = 9 ∨ m = 11 then 30
  else 31

/-- Whether `datetime(year, month, day)` exists (`strptime` raises
`ValueError` otherwise; `MINYEAR` is 1). -/
def fechaCalendario (d m y : Nat) : Bool :=
  1 ≤ y ∧ d ≤ diasMes y m

/-- One `strptime` attempt for a `day sep month sep year` shaped format. -/
def fmtDMY (cs : List Char) (sep : Char) : Bool :=
  match splitOnChar cs sep with
  | [a, b, c] =>
    match comp12 a 31, comp12 b 12, year4 c with
    | some d, some m, some y => fechaCalendario d m y
    | _, _, _ => false
  | _ => false

/-- One `strptime` attempt for a `month sep day sep year` shaped format. -/
def fmtMDY (cs : List Char) (sep : Char) : Bool :=
  match splitOnChar cs sep with
  | [a, b, c] =>
    match comp12 a 12, comp12 b 31, year4 c with
    | some m, some d, some y => fechaCalendario d m y
    | _, _, _ => false
  | _ => false

/-- One `strptime` attempt for the `%Y-%m-%d` format. -/
def fmtYMD (cs : List Char) : Bool :=
  match splitOnChar cs '-' with
  | [a, b, c] =>
    match year4 a, comp12 b 12, comp12 c 31 with
    | some y, some m, some d => fechaCalendario d m y
    | _, _, _ => false
  | _ => false

/-- The format list of the source, tried in order: `%d/%m/%Y`, `%m/%d/%Y`,
`%Y-%m-%d`, `%d-%m-%Y`, `%m-%d-%Y`; only existence of a match is
observable. -/
def fechaFormatos (cs : List Char) : Bool :=
  fmtDMY cs '/' ∨ fmtMDY cs '/' ∨ fmtYMD cs ∨ fmtDMY cs '-' ∨ fmtMDY cs '-'

/-- The exceptions the model tracks: `fecha_str.strip()` on a non-string
raises `AttributeError`. -/
inductive PyExc where
  | attributeError : PyExc
deriving DecidableEq, Repr

/-- Decidable equality for `Except`, used to evaluate the engine on
concrete records. -/
instance {ε α : Type} [DecidableEq ε] [DecidableEq α] : DecidableEq (Except ε α) := fun a b =>
  match a, b with
  | .error e, .error f =>
    if h : e = f then isTrue (congrArg Except.error h)
    else isFalse (fun hc => h (Except.error.inj hc))
  | .error _, .ok _ => isFalse (fun hc => Except.noConfusion hc)
  | .ok _, .error _ => isFalse (fun hc => Except.noConfusion hc)
  | .ok x, .ok y =>
    if h : x = y then isTrue (congrArg Except.ok h)
    else isFalse (fun hc => h (Except.ok.inj hc))

/-- Source `es_fecha_valida` (lines 89-108).  `None` is rejected before the
`.strip()` call; a numeric value reaches `fecha_str.strip()` and raises
`AttributeError` (floats have no `strip`). -/
def es_fecha_valida (v : JVal) : Except PyExc Bool :=
  match v with
  | .vnone => .ok false
  | .vnum _ => .error .attributeError
  | .vstr s =>
    let t := trimChars s.data
    if t = [] then .ok false else .ok (fechaFormatos t)

/-- Python dict of scalar values, with first-match lookup and
replace-or-append update (insertion-ordered dict semantics). -/
abbrev PyDict := List (String × JVal)

/-- Models `d.get(k)`: Python returns `None` when the key is absent, which
the scalar model renders as `vnone`. -/
def dictGet (d : PyDict) (k : String) : JVal :=
  match d.find? (fun p => p.1 = k) with
  | some p => p.2
  | none => .vnone

/-- Models `d[k] = v`. -/
def dictSet : PyDict → String → JVal → PyDict
  | [], k, v => [(k, v)]
  | (k0, v0) :: rest, k, v =>
    if k0 = k then (k, v) :: rest else (k0, v0) :: dictSet rest k v

/-- Which rule produced a validation error; together with the field label
this identifies the emission site in the source (the fixed `motivo` /
`sugerencia` strings are not carried, see the header comment). -/
inductive EKind where
  | missing : EKind
  | format : EKind
  | arith : EKind
  | currencyMismatch : EKind
  | reconcile : EKind
deriving DecidableEq, Repr

/-- A validation error: the `campo` label plus the rule identity. -/
structure VErr where
  campo : String
  kind : EKind
deriving DecidableEq, Repr

/-- The 15 required header fields, in source order (lines 118-132). -/
inductive HField where
  | supplier | supplierAddress | supplierTaxID
  | customer | customerAddress | customerTaxID
  | invoiceNumber | invoiceDate | incoterm
  | portOfLoading | portOfDischarge | countryOfOrigin
  | paymentTerms | currency | totalInvoiceValue
deriving DecidableEq, Repr

/-- The record key each header field is read from. -/
def fieldKey : HField → String
  | .supplier => "Supplier"
  | .supplierAddress => "SupplierAddress"
  | .supplierTaxID => "SupplierTaxID"
  | .customer => "Customer"
  | .customerAddress => "CustomerAddress"
  | .customerTaxID => "CustomerTaxID"
  | .invoiceNumber => "InvoiceNumber"
  | .invoiceDate => "InvoiceDate"
  | .incoterm => "Incoterm"
  | .portOfLoading => "PortOfLoading"
  | .portOfDischarge => "PortOfDischarge"
  | .countryOfOrigin => "CountryOfOrigin"
  | .paymentTerms => "PaymentTerms"
  | .currency => "Currency"
  | .totalInvoiceValue => "TotalInvoiceValue"

/-- The Spanish `campo` label of each header field's errors. -/
def fieldLabel : HField → String
  | .supplier => "Exportador - Nombre"
  | .supplierAddress => "Exportador - Dirección"
  | .supplierTaxID => "Exportador - NIT/ID"
  | .customer => "Importador - Nombre"
  | .customerAddress => "Importador - Dirección"
  | .customerTaxID => "Importador - NIT/ID"
  | .invoiceNumber => "Número de Factura"
  | .invoiceDate => "Fecha de Factura"
  | .incoterm => "Incoterm"
  | .portOfLoading => "Puerto de Carga"
  | .portOfDischarge => "Puerto de Descarga"
  | .countryOfOrigin => "País de Origen"
  | .paymentTerms => "Condiciones de Pago"
  | .currency => "Moneda"
  | .totalInvoiceValue => "Valor Total"

/-- The check order of `validar_campos_principales` (lines 144-270). -/
def headerFields : List HField :=
  [.supplier, .supplierAddress, .supplierTaxID,
   .customer, .customerAddress, .customerTaxID,
   .invoiceNumber, .invoiceDate, .incoterm,
   .portOfLoading, .portOfDischarge, .countryOfOrigin,
   .paymentTerms, .currency, .totalInvoiceValue]

/-- A presence-only header rule: one `MissingField` error when empty. -/
def presenceOnly (label : String) (v : JVal) : List VErr :=
  if esta_vacio v then [⟨label, .missing⟩] else []

/-- The Incoterm whitelist of the source (line 210). -/
def incotermCodes : List String :=
  ["EXW", "FCA", "FAS", "FOB", "CFR", "CIF", "CPT", "CIP", "DAP", "DPU", "DDP", "DAT"]

/-- Models `str(incoterm).strip().upper()`. -/
def pyTrimUpper (v : JVal) : String :=
  ⟨(trimChars (pyStr v).data).map upChar⟩

/-- Incoterm whitelist membership after trim and upper-case (line 209-211). -/
def incotermValido (v : JVal) : Bool :=
  decide (pyTrimUpper v ∈ incotermCodes)

/-- Models `re.fullmatch(r'^[A-Za-z]{3}$', str(moneda).strip())` (line 250). -/
def monedaFormatoValido (v : JVal) : Bool :=
  let t := trimChars (pyStr v).data
  t.length = 3 ∧ t.all isAsciiAlpha

/-- One header field's rule (the corresponding `if`/`elif`/`else` block of
`validar_campos_principales`); only the `InvoiceDate` rule can raise
(through `es_fecha_valida` on a non-string). -/
def headerCheck (campos : PyDict) : HField → Except PyExc (List VErr)
  | .supplier => .ok (presenceOnly (fieldLabel .supplier) (dictGet campos (fieldKey .supplier)))
  | .supplierAddress =>
    .ok (presenceOnly (fieldLabel .supplierAddress) (dictGet campos (fieldKey .supplierAddress)))
  | .supplierTaxID =>
    .ok (presenceOnly (fieldLabel .supplierTaxID) (dictGet campos (fieldKey .supplierTaxID)))
  | .customer => .ok (presenceOnly (fieldLabel .customer) (dictGet campos (fieldKey .customer)))
  | .customerAddress =>
    .ok (presenceOnly (fieldLabel .customerAddress) (dictGet campos (fieldKey .customerAddress)))
  | .customerTaxID =>
    .ok (presenceOnly (fieldLabel .customerTaxID) (dictGet campos (fieldKey .customerTaxID)))
  | .invoiceNumber =>
    .ok (presenceOnly (fieldLabel .invoiceNumber) (dictGet campos (fieldKey .invoiceNumber)))
  | .invoiceDate =>
    let v := dictGet campos (fieldKey .invoiceDate)
    if esta_vacio v then .ok [⟨fieldLabel .invoiceDate, .missing⟩]
    else do
      let ok ← es_fecha_valida v
      pure (if ok then [] else [⟨fieldLabel .invoiceDate, .format⟩])
  | .incoterm =>
    let v := dictGet campos (fieldKey .incoterm)
    if esta_vacio v then .ok [⟨fieldLabel .incoterm, .missing⟩]
    else .ok (if incotermValido v then [] else [⟨fieldLabel .incoterm, .format⟩])
  | .portOfLoading =>
    .ok (presenceOnly (fieldLabel .portOfLoading) (dictGet campos (fieldKey .portOfLoading)))
  | .portOfDischarge =>
    .ok (presenceOnly (fieldLabel .portOfDischarge) (dictGet campos (fieldKey .portOfDischarge)))
  | .countryOfOrigin =>
    .ok (presenceOnly (fieldLabel .countryOfOrigin) (dictGet campos (fieldKey .countryOfOrigin)))
  | .paymentTerms =>
    .ok (presenceOnly (fieldLabel .paymentTerms) (dictGet campos (fieldKey .paymentTerms)))
  | .currency =>
    let v := dictGet campos (fieldKey .currency)
    if esta_vacio v then .ok [⟨fieldLabel .currency, .missing⟩]
    else .ok (if monedaFormatoValido v then [] else [⟨fieldLabel .currency, .format⟩])
  | .totalInvoiceValue =>
    let v := dictGet campos (fieldKey .totalInvoiceValue)
    if esta_vacio v then .ok [⟨fieldLabel .totalInvoiceValue, .missing⟩]
    else .ok (if parse_numeric v = none then [⟨fieldLabel .totalInvoiceValue, .format⟩] else [])

/-- Runs the field rules in order, concatenating their errors; an
exception aborts the remaining checks (as in Python). -/
def collectChecks (campos : PyDict) : List HField → Except PyExc (List VErr)
  | [] => .ok []
  | f :: rest => do
    let e ← headerCheck campos f
    let es ← collectChecks campos rest
    pure (e ++ es)

/-- Source `validar_campos_principales` (lines 110-271). -/
def validar_campos_principales (campos : PyDict) : Except PyExc (List VErr) :=
  collectChecks campos headerFields

/-- The loop-carried Python locals of `validar_items`: `none` means the
name was never assigned (`'x' in locals()` is false), `some v` means it
holds `v`, where `v = none` models Python `None`.  Assignments happen only
in the non-empty branches, so values persist across iterations. -/
structure ItemLocals where
  qty_val : Option (Option PyFloat)
  price_val : Option (Option PyFloat)
  subtotal_val : Option (Option PyFloat)
deriving DecidableEq, Repr

/-- The initial state: no local assigned yet. -/
def ItemLocals.init : ItemLocals := ⟨none, none, none⟩

/-- Builds the item-scoped `campo` label, e.g. `Cantidad (Producto 2)`. -/
def prodLabel (pre : String) (idx : Nat) : String :=
  pre ++ (" (Producto " : String) ++ Nat.repr idx ++ (")" : String)

/-- Models `re.fullmatch(r'^\d+(\.\d+)*$', s)`: nonempty digit groups
separated by single dots. -/
def hsPatGroups (cs : List Char) : Bool :=
  (splitOnChar cs '.').all (fun g => g ≠ [] ∧ g.all isDig)

/-- The double HS-code pattern of line 367: digit groups with dots, and
all-digits after removing the dots. -/
def hsFormatoValido (v : JVal) : Bool :=
  let cs := trimChars (pyStr v).data
  hsPatGroups cs ∧ (let nd := cs.filter (fun c => c ≠ '.'); nd ≠ [] ∧ nd.all isDig)

/-- The accumulation step of lines 411-420, on the already-updated locals:
add `subtotal_val` when assigned and non-`None`; otherwise, when both
`qty_val` and `price_val` are assigned, Python evaluates `subtotal_val is
None` — an `UnboundLocalError` when it was never assigned, silenced by the
bare `except` (contributing nothing) — and adds `qty_val * price_val` when
the subtotal is `None` and both factors are non-`None`. -/
def acumularSubtotal (suma : PyFloat) (st : ItemLocals) : PyFloat :=
  match st.subtotal_val with
  | some (some v) => suma.add v
  | some none =>
    match st.qty_val, st.price_val with
    | some (some q), some (some p) => suma.add (q.mul p)
    | _, _ => suma
  | none => suma

/-- The arithmetic-coherence check of lines 421-430, on the
already-updated locals: it requires all three names assigned and
non-`None`, and compares against `round(qty * price, 2)` with strict
`> 0.01`. -/
def coherenciaErrs (idx : Nat) (st : ItemLocals) : List VErr :=
  match st.qty_val, st.price_val, st.subtotal_val with
  | some (some q), some (some p), some (some sb) =>
    if (PyFloat.absD (sb.sub (PyFloat.round2 (q.mul p)))).bgt tolDec then
      [⟨prodLabel ("Valor Total Ítem" : String) idx, .arith⟩]
    else []
  | _, _, _ => []

/-- One iteration of the `validar_items` loop (lines 283-430) for the
item at 1-based index `idx`: returns the errors it appends, the updated
locals, and the updated running sum. -/
def procesarItem (moneda_factura : JVal) (st : ItemLocals) (suma : PyFloat)
    (idx : Nat) (item : PyDict) : List VErr × ItemLocals × PyFloat :=
  let desc := dictGet item ("Description" : String)
  let qty := dictGet item ("Quantity" : String)
  let unit := dictGet item ("UnitOfMeasurement" : String)
  let price := dictGet item ("UnitPrice" : String)
  let subtotal := dictGet item ("NetValuePerItem" : String)
  let hs := dictGet item ("HSCode" : String)
  let weight := dictGet item ("Weight" : String)
  let packages := dictGet item ("NumberOfPackagesBoxes" : String)
  let e1 := if esta_vacio desc then [⟨prodLabel ("Descripción" : String) idx, .missing⟩] else []
  let eqty : List VErr × Option (Option PyFloat) :=
    if esta_vacio qty then ([⟨prodLabel ("Cantidad" : String) idx, .missing⟩], st.qty_val)
    else
      let v := parse_numeric qty
      ((if v = none then [⟨prodLabel ("Cantidad" : String) idx, .format⟩] else []), some v)
  let e3 := if esta_vacio unit then [⟨prodLabel ("Unidad" : String) idx, .missing⟩] else []
  let eprice : List VErr × Option (Option PyFloat) :=
    if esta_vacio price then ([⟨prodLabel ("Precio Unitario" : String) idx, .missing⟩], st.price_val)
    else
      let v := parse_numeric price
      ((if v = none then [⟨prodLabel ("Precio Unitario" : String) idx, .format⟩] else []), some v)
  let esub : List VErr × Option (Option PyFloat) :=
    if esta_vacio subtotal then
      ([⟨prodLabel ("Valor Total Ítem" : String) idx, .missing⟩], st.subtotal_val)
    else
      let v := parse_numeric subtotal
      ((if v = none then [⟨prodLabel ("Valor Total Ítem" : String) idx, .format⟩] else []), some v)
  let e6 :=
    if esta_vacio hs then [⟨prodLabel ("Código HS" : String) idx, .missing⟩]
    else if hsFormatoValido hs then [] else [⟨prodLabel ("Código HS" : String) idx, .format⟩]
  let e7 :=
    if esta_vacio weight then [⟨prodLabel ("Peso" : String) idx, .missing⟩]
    else if parse_numeric weight = none then [⟨prodLabel ("Peso" : String) idx, .format⟩] else []
  let e8 :=
    if esta_vacio packages then [⟨prodLabel ("Número de Paquetes" : String) idx, .missing⟩]
    else
      match parse_numeric packages with
      | none => [⟨prodLabel ("Número de Paquetes" : String) idx, .format⟩]
      | some pv =>
        if pv.isIntVal then [] else [⟨prodLabel ("Número de Paquetes" : String) idx, .format⟩]
  let item_currency := dictGet item ("Currency" : String)
  let e9 :=
    if truthy item_currency ∧ truthy moneda_factura then
      if pyTrimUpper item_currency ≠ pyTrimUpper moneda_factura then
        [⟨prodLabel ("Moneda" : String) idx, .currencyMismatch⟩]
      else []
    else []
  let st2 : ItemLocals := ⟨eqty.2, eprice.2, esub.2⟩
  let suma2 := acumularSubtotal suma st2
  let e10 := coherenciaErrs idx st2
  (e1 ++ eqty.1 ++ e3 ++ eprice.1 ++ esub.1 ++ e6 ++ e7 ++ e8 ++ e9 ++ e10, st2, suma2)

/-- The item loop, threading index, locals and running sum. -/
def itemsLoop (moneda : JVal) : List PyDict → Nat → ItemLocals → PyFloat → List VErr × PyFloat
  | [], _, _, suma => ([], suma)
  | it :: rest, idx, st, suma =>
    let step := procesarItem moneda st suma idx it
    let tail := itemsLoop moneda rest (idx + 1) step.2.1 step.2.2
    (step.1 ++ tail.1, tail.2)

/-- The per-item phase of `validar_items`: all item-scoped errors plus the
final running sum (`suma_items` starts at `0.0`, indices at 1). -/
def itemsPhase (items : List PyDict) (moneda : JVal) : List VErr × PyFloat :=
  itemsLoop moneda items 1 ItemLocals.init ⟨0, 0⟩

/-- The field label of the reconciliation error (line 436). -/
def reconLabel : String := "Valor Total vs Suma Ítems"

/-- The reconciliation check of lines 431-439: only when a parsed header
total was supplied, compare `round(suma_items, 2)` against it with strict
`> 0.01`. -/
def reconcilePhase (suma : PyFloat) (total_factura : Option PyFloat) : List VErr :=
  match total_factura with
  | none => []
  | some t =>
    if (PyFloat.absD ((PyFloat.round2 suma).sub t)).bgt tolDec then [⟨reconLabel, .reconcile⟩]
    else []

/-- Source `validar_items` (lines 273-440). -/
def validar_items (items : List PyDict) (moneda_factura : JVal)
    (total_factura : Option PyFloat) : List VErr :=
  let ph := itemsPhase items moneda_factura
  ph.1 ++ reconcilePhase ph.2 total_factura

/-- The shape of the record's `"Fields"` entry: a list of key/value pair
objects, or a mapping.  (A scalar `"Fields"` value would make
`campos.get` in Python raise; it is outside the model, as is a scalar
item container.) -/
inductive FieldsEntry where
  | flist : List PyDict → FieldsEntry
  | fdict : PyDict → FieldsEntry
deriving DecidableEq, Repr

/-- The raw input record: the optional `"Fields"` entry, the three
optional item containers, and the remaining top-level scalar entries
(`data` itself is the header mapping when `"Fields"` is absent). -/
structure RawRecord where
  fields : Option FieldsEntry
  table : Option (List PyDict)
  items : Option (List PyDict)
  productos : Option (List PyDict)
  top : PyDict
deriving DecidableEq, Repr

/-- Python `a or b` on scalar values: `a` when truthy, else `b`. -/
def pyOr (a b : JVal) : JVal :=
  if truthy a then a else b

/-- The key resolved from a `"Fields"` pair object (line 454). -/
def pairKey (item : PyDict) : JVal :=
  pyOr (dictGet item ("Fields" : String))
    (pyOr (dictGet item ("Field" : String))
      (pyOr (dictGet item ("Nombre" : String)) (dictGet item ("name" : String))))

/-- The value resolved from a `"Fields"` pair object (line 455). -/
def pairValue (item : PyDict) : JVal :=
  pyOr (dictGet item ("Value" : String))
    (pyOr (dictGet item ("Valor" : String)) (dictGet item ("value" : String)))

/-- The header normalization of `validar_factura` (lines 450-460): a
`"Fields"` list is folded into a dict through the synonym chains (a
truthy non-string key would create an entry no validation lookup ever
reads, hence the skip); a `"Fields"` mapping is used directly; otherwise
the record itself is the header mapping. -/
def normCampos (data : RawRecord) : PyDict :=
  match data.fields with
  | some (.flist l) =>
    l.foldl (fun campos item =>
      match pairKey item with
      | .vstr k => if k ≠ ("" : String) then dictSet campos k (pairValue item) else campos
      | _ => campos) []
  | some (.fdict d) => d
  | none => data.top

/-- The item-container selection of lines 462-468: `Table`, else `Items`,
else `Productos`, else empty. -/
def selectItems (data : RawRecord) : List PyDict :=
  match data.table with
  | some l => l
  | none =>
    match data.items with
    | some l => l
    | none =>
      match data.productos with
      | some l => l
      | none => []

/-- The parsed header total of lines 472-474 (`parse_numeric` returns
`None` on `None`, so the `is not None` guard only skips a redundant
call). -/
def totalFacturaVal (campos : PyDict) : Option PyFloat :=
  if dictGet campos ("TotalInvoiceValue" : String) ≠ .vnone then
    parse_numeric (dictGet campos ("TotalInvoiceValue" : String))
  else none

/-- The result record: `resultado` is `"Cumple"` or `"No cumple"`,
`errores` the collected error list. -/
structure VResult where
  resultado : String
  errores : List VErr
deriving DecidableEq, Repr

/-- Source `validar_factura` (lines 442-483). -/
def validar_factura (data : RawRecord) : Except PyExc VResult := do
  let campos := normCampos data
  let items := selectItems data
  let errH ← validar_campos_principales campos
  let errs := errH ++ validar_items items (dictGet campos ("Currency" : String)) (totalFacturaVal campos)
  pure ⟨if errs.length = 0 then ("Cumple" : String) else ("No cumple" : String), errs⟩

/-- A header field is present and valid when it is non-empty and its rule
emits nothing (and raises nothing). -/
def presentAndValid (campos : PyDict) (f : HField) : Prop :=
  esta_vacio (dictGet campos (fieldKey f)) = false ∧ headerCheck campos f = .ok []

/-- The integer denoted by a string matching `-?\d+` (used to state the
no-separator rule of `parse_numeric`). -/
def intCharsVal (cs : List Char) : Int :=
  match cs with
  | [] => 0
  | c :: r =>
    if c = '-' then -(((digitsVal r).getD (0, 0)).1 : Int)
    else (((digitsVal (c :: r)).getD (0, 0)).1 : Int)

/-- The number of reconciliation errors the source emits for a record:
none when the header total did not parse, otherwise one exactly when
`|round(sum, 2) - total| > 0.01`. -/
def reconExpectedCount (data : RawRecord) : Nat :=
  match totalFacturaVal (normCampos data) with
  | none => 0
  | some t =>
    if (PyFloat.absD ((PyFloat.round2
        (itemsPhase (selectItems data) (dictGet (normCampos data) ("Currency" : String))).2).sub t)).bgt tolDec
    then 1 else 0

/-- A fully valid header mapping (every required field present and in the
accepted format; the total `0` matches the empty item list exactly). -/
def validCampos : PyDict :=
  [(("Supplier" : String), .vstr ("ACME Corp")),
   (("SupplierAddress" : String), .vstr ("1 Main St, Springfield, USA")),
   (("SupplierTaxID" : String), .vstr ("US-123456")),
   (("Customer" : String), .vstr ("Importadora SAS")),
   (("CustomerAddress" : String), .vstr ("Calle 1, Bogotá, Colombia")),
   (("CustomerTaxID" : String), .vstr ("900123456-7")),
   (("InvoiceNumber" : String), .vstr ("F-001")),
   (("InvoiceDate" : String), .vstr ("31/12/2024")),
   (("Incoterm" : String), .vstr ("FOB")),
   (("PortOfLoading" : String), .vstr ("Shanghai")),
   (("PortOfDischarge" : String), .vstr ("Cartagena")),
   (("CountryOfOrigin" : String), .vstr ("China")),
   (("PaymentTerms" : String), .vstr ("30 días")),
   (("Currency" : String), .vstr ("USD")),
   (("TotalInvoiceValue" : String), .vstr ("0"))]

/-- A record carrying `validCampos` at top level (no `Fields` wrapper). -/
def validRec : RawRecord := ⟨none, none, none, none, validCampos⟩

/-- `validCampos` with the `Supplier` entry removed. -/
def camposSinSupplier : PyDict := validCampos.filter (fun p => p.1 ≠ ("Supplier" : String))

/-- First line item of the C1 scenario: quantity 2, price 3, subtotal 6. -/
def c1Item1 : PyDict :=
  [(("Quantity" : String), .vstr ("2")), (("UnitPrice" : String), .vstr ("3")),
   (("NetValuePerItem" : String), .vstr ("6"))]

/-- Second line item of the C1 scenario: no `Quantity` at all. -/
def c1Item2 : PyDict :=
  [(("UnitPrice" : String), .vstr ("5")), (("NetValuePerItem" : String), .vstr ("100"))]

/-- The single-field item of the C2 scenario. -/
def c2Item1 : PyDict := [(("NetValuePerItem" : String), .vstr ("50"))]

/-- The reconciliation scenario record with matching total `300.00`. -/
def recTotal300 : RawRecord :=
  ⟨none,
   some [[(("NetValuePerItem" : String), .vstr ("100.00"))],
         [(("NetValuePerItem" : String), .vstr ("200.00"))]],
   none, none, [(("TotalInvoiceValue" : String), .vstr ("300.00"))]⟩

/-- The reconciliation scenario record with mismatching total `300.02`. -/
def recTotal30002 : RawRecord :=
  ⟨none,
   some [[(("NetValuePerItem" : String), .vstr ("100.00"))],
         [(("NetValuePerItem" : String), .vstr ("200.00"))]],
   none, none, [(("TotalInvoiceValue" : String), .vstr ("300.02"))]⟩

/-- Which synonym key a `Fields` pair object uses for its key. -/
inductive KeySyn where
  | kFields | kField | kNombre | kName
deriving DecidableEq, Repr

/-- The record key of each key synonym. -/
def keySynStr : KeySyn → String
  | .kFields => "Fields"
  | .kField => "Field"
  | .kNombre => "Nombre"
  | .kName => "name"

/-- Which synonym key a `Fields` pair object uses for its value. -/
inductive ValSyn where
  | sValue | sValor | sLowValue
deriving DecidableEq, Repr

/-- The record key of each value synonym. -/
def valSynStr : ValSyn → String
  | .sValue => "Value"
  | .sValor => "Valor"
  | .sLowValue => "value"

/-- One `Fields` pair: a key under a chosen key synonym and a value under
a chosen value synonym. -/
structure SynPair where
  ks : KeySyn
  key : String
  vs : ValSyn
  val : JVal
deriving DecidableEq, Repr

/-- The pair object the collaborator would send for one `SynPair`. -/
def SynPair.toDict (p : SynPair) : PyDict :=
  [(keySynStr p.ks, .vstr p.key), (valSynStr p.vs, p.val)]

/-- The direct header mapping equivalent to a list of pairs. -/
def pairsToDict (ps : List SynPair) : PyDict :=
  ps.foldl (fun d p => dictSet d p.key p.val) []

/-- The C8 counterexample record: pair shape with the falsy value `0.0`
under the `Value` synonym. -/
def recC8Pairs : RawRecord :=
  ⟨some (.flist [[(("Field" : String), .vstr ("Currency")), (("Value" : String), .vnum ⟨0, 0⟩)]]),
   none, none, none, []⟩

/-- The C8 counterexample record: the equivalent direct mapping. -/
def recC8Direct : RawRecord :=
  ⟨some (.fdict [(("Currency" : String), .vnum ⟨0, 0⟩)]), none, none, none, []⟩

/-- Inversion of a successful `Except` bind. -/
theorem except_bind_ok {ε α β : Type} {x : Except ε α} {f : α → Except ε β} {b : β}
    (h : (x >>= f) = .ok b) : ∃ a, x = .ok a ∧ f a = .ok b := by
  cases x with
  | error e => simp [Bind.bind, Except.bind] at h
  | ok a => exact ⟨a, rfl, by simpa [Bind.bind, Except.bind] using h⟩

/-- Unfolding of `collectChecks` on a cons cell. -/
theorem collectChecks_cons {campos : PyDict} {f : HField} {rest : List HField}
    {errs : List VErr} (h : collectChecks campos (f :: rest) = .ok errs) :
    ∃ e es, headerCheck campos f = .ok e ∧ collectChecks campos rest = .ok es ∧ errs = e ++ es := by
  simp only [collectChecks] at h
  obtain ⟨e, he, h2⟩ := except_bind_ok h
  obtain ⟨es, hes, h3⟩ := except_bind_ok h2
  refine ⟨e, es, he, hes, ?_⟩
  simpa [pure, Except.pure] using h3.symm

/-- A presence-only rule emits nothing or its single missing-field error. -/
theorem presenceOnly_shape (label : String) (v : JVal) :
    presenceOnly label v = [] ∨ presenceOnly label v = [⟨label, .missing⟩] := by
  unfold presenceOnly
  split <;> simp

/-- Each header rule emits at most one error, always under its own label. -/
theorem headerCheck_shape (campos : PyDict) (f : HField) {errs : List VErr}
    (h : headerCheck campos f = .ok errs) :
    errs = [] ∨ ∃ k, errs = [⟨fieldLabel f, k⟩] := by
  cases f <;>
    first
    | (simp only [headerCheck, Except.ok.injEq] at h
       subst h
       rcases presenceOnly_shape _ _ with h2 | h2 <;> rw [h2]
       · exact Or.inl rfl
       · exact Or.inr ⟨.missing, rfl⟩)
    | (simp only [headerCheck] at h
       split at h
       · exact Or.inr ⟨.missing, ((Except.ok.inj h).symm ▸ rfl)⟩
       · first
         | (rcases hd : es_fecha_valida (dictGet campos (fieldKey .invoiceDate)) with e | b
            · rw [hd] at h; simp [Bind.bind, Except.bind] at h
            · rw [hd] at h
              simp only [Bind.bind, Except.bind, pure, Except.pure, Except.ok.injEq] at h
              subst h
              cases b
              · exact Or.inr ⟨.format, by simp⟩
              · exact Or.inl (by simp))
         | (simp only [Except.ok.injEq] at h
            subst h
            split <;>
              first
              | exact Or.inl rfl
              | exact Or.inr ⟨.format, rfl⟩))

/-- The fifteen field labels are pairwise distinct. -/
theorem fieldLabel_injective (g g' : HField) (h : fieldLabel g = fieldLabel g') : g = g' := by
  cases g <;> cases g' <;> first | rfl | exact absurd h (by decide)

/-- No header label equals the reconciliation label. -/
theorem fieldLabel_ne_recon (g : HField) : fieldLabel g ≠ reconLabel := by
  cases g <;> decide

/-- Each field occurs exactly once in the check order. -/
theorem headerFields_count (f : HField) : headerFields.count f = 1 := by
  cases f <;> rfl

/-- A header rule's errors all carry its own label, so a different field's
filter drops them. -/
theorem headerCheck_filter_ne {campos : PyDict} {a f : HField} (hne : a ≠ f)
    {e : List VErr} (h : headerCheck campos a = .ok e) :
    e.filter (fun er => er.campo == fieldLabel f) = [] := by
  rcases headerCheck_shape campos a h with rfl | ⟨k, rfl⟩
  · rfl
  · have hb : (({ campo := fieldLabel a, kind := k } : VErr).campo == fieldLabel f) = false := by
      rw [beq_eq_false_iff_ne]
      exact fun hc => hne (fieldLabel_injective a f hc)
    simp [List.filter_cons, hb]

/-- The filtered error count of the check sequence is bounded by the
field's multiplicity in the sequence. -/
theorem collect_filter_le (campos : PyDict) (f : HField) :
    ∀ (l : List HField) (errs : List VErr), collectChecks campos l = .ok errs →
      (errs.filter (fun e => e.campo == fieldLabel f)).length ≤ l.count f := by
  intro l
  induction l with
  | nil =>
    intro errs h
    simp only [collectChecks, Except.ok.injEq] at h
    subst h
    simp
  | cons a t ih =>
    intro errs h
    obtain ⟨e, es, ha, ht, rfl⟩ := collectChecks_cons h
    rw [List.filter_append, List.length_append]
    have htail := ih es ht
    by_cases haf : a = f
    · subst haf
      rw [List.count_cons_self]
      have hlen : (e.filter (fun er => er.campo == fieldLabel a)).length ≤ 1 := by
        rcases headerCheck_shape campos a ha with rfl | ⟨k, rfl⟩
        · simp
        · simp [List.length_filter_le]
      omega
    · rw [List.count_cons_of_ne (Ne.symm haf)]
      rw [headerCheck_filter_ne haf ha]
      simpa using htail

/-- The filtered errors of the check sequence equal those of the field's
own rule when the field occurs exactly once. -/
theorem collect_filter_eq (campos : PyDict) (f : HField) :
    ∀ (l : List HField) (errs ef : List VErr), collectChecks campos l = .ok errs →
      headerCheck campos f = .ok ef → l.count f = 1 →
      errs.filter (fun e => e.campo == fieldLabel f) =
        ef.filter (fun e => e.campo == fieldLabel f) := by
  intro l
  induction l with
  | nil =>
    intro errs ef h hf hc
    simp at hc
  | cons a t ih =>
    intro errs ef h hf hc
    obtain ⟨e, es, ha, ht, rfl⟩ := collectChecks_cons h
    rw [List.filter_append]
    by_cases haf : a = f
    · subst haf
      have he : e = ef := by
        rw [ha] at hf
        exact Except.ok.inj hf
      subst he
      rw [List.count_cons_self] at hc
      have hzero : t.count a = 0 := by omega
      have hle := collect_filter_le campos a t es ht
      have h0 : (es.filter (fun er => er.campo == fieldLabel a)).length = 0 := by omega
      rw [List.length_eq_zero] at h0
      rw [h0, List.append_nil]
    · rw [List.count_cons_of_ne (Ne.symm haf)] at hc
      rw [headerCheck_filter_ne haf ha, List.nil_append]
      exact ih es ef ht hf hc

/-- Every collected header error carries some checked field's label. -/
theorem collect_campo_mem (campos : PyDict) :
    ∀ (l : List HField) (errs : List VErr), collectChecks campos l = .ok errs →
      ∀ e ∈ errs, ∃ g, g ∈ l ∧ e.campo = fieldLabel g := by
  intro l
  induction l with
  | nil =>
    intro errs h e he
    simp only [collectChecks, Except.ok.injEq] at h
    subst h
    simp at he
  | cons a t ih =>
    intro errs h e he
    obtain ⟨ea, es, ha, ht, rfl⟩ := collectChecks_cons h
    rcases List.mem_append.mp he with h1 | h2
    · rcases headerCheck_shape campos a ha with rfl | ⟨k, rfl⟩
      · simp at h1
      · refine ⟨a, List.mem_cons_self a t, ?_⟩
        simp at h1
        rw [h1]
    · obtain ⟨g, hg, hcampo⟩ := ih es ht e h2
      exact ⟨g, List.mem_cons_of_mem a hg, hcampo⟩

/-- When every listed rule emits nothing, the collected sequence is empty. -/
theorem collect_all_nil (campos : PyDict) :
    ∀ l : List HField, (∀ g ∈ l, headerCheck campos g = .ok []) →
      collectChecks campos l = .ok [] := by
  intro l
  induction l with
  | nil => intro _; rfl
  | cons a t ih =>
    intro h
    have ha := h a (List.mem_cons_self a t)
    have ht := ih (fun g hg => h g (List.mem_cons_of_mem a hg))
    simp [collectChecks, ha, ht, Bind.bind, Except.bind, pure, Except.pure]

/-- When exactly one listed rule emits a single error and all the others
emit nothing, the collected sequence is exactly that error. -/
theorem collect_single (campos : PyDict) (f : HField) (er : VErr) :
    ∀ l : List HField, headerCheck campos f = .ok [er] →
      (∀ g ∈ l, g ≠ f → headerCheck campos g = .ok []) → l.count f = 1 →
      collectChecks campos l = .ok [er] := by
  intro l
  induction l with
  | nil => intro _ _ hc; simp at hc
  | cons a t ih =>
    intro hf hg hc
    by_cases haf : a = f
    · subst haf
      rw [List.count_cons_self] at hc
      have hzero : t.count a = 0 := by omega
      have hnotmem : a ∉ t := List.count_eq_zero.mp hzero
      have ht : collectChecks campos t = .ok [] :=
        collect_all_nil campos t (fun g hgt =>
          hg g (List.mem_cons_of_mem a hgt) (fun hgf => hnotmem (hgf ▸ hgt)))
      simp [collectChecks, hf, ht, Bind.bind, Except.bind, pure, Except.pure]
    · rw [List.count_cons_of_ne (Ne.symm haf)] at hc
      have ha : headerCheck campos a = .ok [] := hg a (List.mem_cons_self a t) haf
      have ht := ih hf (fun g hgt => hg g (List.mem_cons_of_mem a hgt)) hc
      simp [collectChecks, ha, ht, Bind.bind, Except.bind, pure, Except.pure]

/-- An empty required field always produces exactly its missing-field
error. -/
theorem headerCheck_empty (campos : PyDict) (f : HField)
    (h : esta_vacio (dictGet campos (fieldKey f)) = true) :
    headerCheck campos f = .ok [⟨fieldLabel f, .missing⟩] := by
  cases f <;> simp [headerCheck, presenceOnly, h]

/-- A present-and-valid field's rule emits nothing (restatement of the
definition, convenient for rewriting). -/
theorem headerCheck_valid {campos : PyDict} {f : HField}
    (h : presentAndValid campos f) : headerCheck campos f = .ok [] := h.2

/-- C4: every required header field triggers at most one error for its own
label (presence or format, never both), and a header mapping in which
exactly one required field is empty while every other field is present
and valid yields exactly that field's single missing-field error and
nothing else. -/
theorem c4_header_rules :
    (∀ (campos : PyDict) (errs : List VErr), validar_campos_principales campos = .ok errs →
        ∀ f : HField, (errs.filter (fun e => e.campo == fieldLabel f)).length ≤ 1)
    ∧ (∀ (campos : PyDict) (f : HField), esta_vacio (dictGet campos (fieldKey f)) = true →
        (∀ g : HField, g ≠ f → presentAndValid campos g) →
        validar_campos_principales campos = .ok [⟨fieldLabel f, .missing⟩]) := by
  constructor
  · intro campos errs h f
    have := collect_filter_le campos f headerFields errs h
    rw [headerFields_count f] at this
    exact this
  · intro campos f hempty hvalid
    exact collect_single campos f ⟨fieldLabel f, .missing⟩ headerFields
      (headerCheck_empty campos f hempty)
      (fun g _ hgf => (hvalid g hgf).2)
      (headerFields_count f)

/-- Witness for C4: in the valid header with `Supplier` removed, the rule
set reports exactly the single `Supplier` missing-field error. -/
theorem c4_header_rules_witness :
    validar_campos_principales camposSinSupplier = .ok [⟨fieldLabel .supplier, .missing⟩] :=
  c4_header_rules.2 camposSinSupplier .supplier (by decide)
    (by
      intro g hg
      cases g
      case supplier => exact absurd rfl hg
      all_goals exact ⟨by decide, by decide⟩)

/-- C9: for a non-empty Incoterm value, no Incoterm-labelled error is
emitted exactly when the trimmed upper-cased value belongs to the fixed
whitelist; lowercase `fob` is accepted and `XXX` draws the
not-recognized (format) error. -/
theorem c9_incoterm :
    (∀ (campos : PyDict) (errs : List VErr), validar_campos_principales campos = .ok errs →
        esta_vacio (dictGet campos ("Incoterm" : String)) = false →
        ((errs.filter (fun e => e.campo == ("Incoterm" : String))).length = 0 ↔
          pyTrimUpper (dictGet campos ("Incoterm" : String)) ∈ incotermCodes))
    ∧ incotermValido (.vstr ("fob")) = true
    ∧ incotermValido (.vstr ("XXX")) = false
    ∧ (validar_campos_principales [(("Incoterm" : String), .vstr ("fob"))]).map
        (fun errs => errs.filter (fun e => e.campo == ("Incoterm" : String))) = .ok []
    ∧ (validar_campos_principales [(("Incoterm" : String), .vstr ("XXX"))]).map
        (fun errs => errs.filter (fun e => e.campo == ("Incoterm" : String))) =
        .ok [⟨("Incoterm" : String), .format⟩] := by
  refine ⟨?_, by decide, by decide, by decide, by decide⟩
  intro campos errs h hne
  have hpiece : headerCheck campos .incoterm =
      .ok (if incotermValido (dictGet campos ("Incoterm" : String)) then []
           else [⟨("Incoterm" : String), .format⟩]) := by
    simp only [headerCheck, fieldKey, fieldLabel, hne, Bool.false_eq_true, if_false]
  have hfilter := collect_filter_eq campos .incoterm headerFields errs _ h hpiece
    (headerFields_count .incoterm)
  rw [show fieldLabel .incoterm = ("Incoterm" : String) from rfl] at hfilter
  cases hv : incotermValido (dictGet campos ("Incoterm" : String)) with
  | true =>
    rw [hv] at hfilter
    simp at hfilter
    have hmem : pyTrimUpper (dictGet campos ("Incoterm" : String)) ∈ incotermCodes := by
      have h2 := hv
      unfold incotermValido at h2
      exact of_decide_eq_true h2
    refine ⟨fun _ => hmem, fun _ => ?_⟩
    rw [List.length_eq_zero, List.filter_eq_nil_iff]
    intro a ha
    simp only [beq_iff_eq]
    exact hfilter a ha
  | false =>
    rw [hv] at hfilter
    simp at hfilter
    have hlen1 : (errs.filter (fun e => e.campo == ("Incoterm" : String))).length = 1 := by
      rw [hfilter]
      rfl
    have hnot : pyTrimUpper (dictGet campos ("Incoterm" : String)) ∉ incotermCodes := by
      have h2 := hv
      unfold incotermValido at h2
      exact of_decide_eq_false h2
    constructor
    · intro hlen
      rw [hlen1] at hlen
      simp at hlen
    · intro hmem
      exact absurd hmem hnot

/-- Witness for C9: the fully valid header (Incoterm `FOB`) instantiates
the general rule with an empty error list. -/
theorem c9_incoterm_witness :
    (([] : List VErr).filter (fun e => e.campo == ("Incoterm" : String))).length = 0 ↔
      pyTrimUpper (dictGet validCampos ("Incoterm" : String)) ∈ incotermCodes :=
  c9_incoterm.1 validCampos [] (by decide) (by decide)

/-- C7: every successful validation has status `Cumple` exactly when its
error list is empty, and that list is the header errors, then the
per-item errors, then the reconciliation errors, in that fixed order. -/
theorem c7_result_assembly :
    ∀ (data : RawRecord) (r : VResult), validar_factura data = .ok r →
      ((r.resultado = ("Cumple" : String)) ↔ r.errores = [])
      ∧ ∃ errH, validar_campos_principales (normCampos data) = .ok errH ∧
          r.errores = errH
            ++ (itemsPhase (selectItems data) (dictGet (normCampos data) ("Currency" : String))).1
            ++ reconcilePhase
                (itemsPhase (selectItems data) (dictGet (normCampos data) ("Currency" : String))).2
                (totalFacturaVal (normCampos data)) := by
  intro data r h
  simp only [validar_factura] at h
  obtain ⟨errH, hH, h2⟩ := except_bind_ok h
  simp only [pure, Except.pure, Except.ok.injEq] at h2
  subst h2
  constructor
  · simp only []
    constructor
    · intro hres
      by_contra hne
      have : (errH ++ validar_items (selectItems data)
          (dictGet (normCampos data) ("Currency" : String)) (totalFacturaVal (normCampos data))).length ≠ 0 := by
        intro h0
        exact hne (List.length_eq_zero.mp h0)
      rw [if_neg this] at hres
      exact absurd hres (by decide)
    · intro hres
      rw [hres]
      rfl
  · refine ⟨errH, hH, ?_⟩
    simp only [validar_items, List.append_assoc]

/-- Witness for C7: the fully valid record validates to `Cumple` with an
empty error list, instantiating the assembly theorem. -/
theorem c7_result_assembly_witness :
    (((VResult.mk ("Cumple" : String) []).resultado = ("Cumple" : String)) ↔
        (VResult.mk ("Cumple" : String) []).errores = [])
    ∧ ∃ errH, validar_campos_principales (normCampos validRec) = .ok errH ∧
        (VResult.mk ("Cumple" : String) []).errores = errH
          ++ (itemsPhase (selectItems validRec) (dictGet (normCampos validRec) ("Currency" : String))).1
          ++ reconcilePhase
              (itemsPhase (selectItems validRec) (dictGet (normCampos validRec) ("Currency" : String))).2
              (totalFacturaVal (normCampos validRec)) :=
  c7_result_assembly validRec ⟨("Cumple" : String), []⟩ (by decide)

/-- String data distributes over append. -/
theorem strData_append (a b : String) : (a ++ b).data = a.data ++ b.data := rfl

/-- Every item-scoped label contains an opening parenthesis. -/
theorem paren_mem_prodLabel (pre : String) (idx : Nat) : '(' ∈ (prodLabel pre idx).data := by
  simp only [prodLabel, strData_append, List.mem_append]
  exact Or.inl (Or.inl (Or.inr (by decide)))

/-- Every error produced while processing one item carries an item-scoped
label (hence one containing a parenthesis). -/
theorem procesarItem_campo (moneda : JVal) (st : ItemLocals) (suma : PyFloat)
    (idx : Nat) (item : PyDict) :
    ∀ e ∈ (procesarItem moneda st suma idx item).1, '(' ∈ e.campo.data := by
  intro e he
  have hp : ∀ pre : String, ∀ k : EKind,
      e = ⟨prodLabel pre idx, k⟩ → '(' ∈ e.campo.data := by
    intro pre k hek
    rw [hek]
    exact paren_mem_prodLabel pre idx
  simp only [procesarItem, coherenciaErrs, List.mem_append] at he
  rcases he with ((((((((h | h) | h) | h) | h) | h) | h) | h) | h) | h <;>
    · repeat' split at h
      all_goals simp at h
      all_goals exact hp _ _ h

/-- Every error of the items phase carries an item-scoped label. -/
theorem itemsLoop_campo (moneda : JVal) :
    ∀ (items : List PyDict) (idx : Nat) (st : ItemLocals) (suma : PyFloat),
      ∀ e ∈ (itemsLoop moneda items idx st suma).1, '(' ∈ e.campo.data := by
  intro items
  induction items with
  | nil => intro idx st suma e he; simp [itemsLoop] at he
  | cons it rest ih =>
    intro idx st suma e he
    simp only [itemsLoop, List.mem_append] at he
    rcases he with h | h
    · exact procesarItem_campo moneda st suma idx it e h
    · exact ih (idx + 1) _ _ e h

/-- The reconciliation label contains no parenthesis. -/
theorem paren_not_mem_recon : '(' ∉ reconLabel.data := by decide

/-- C6: the reconciliation check runs exactly when the header total
parsed, and then emits exactly one `Valor Total vs Suma Ítems` error
exactly when `|round(sum, 2) - total| > 0.01`; item values `100.00` and
`200.00` reconcile silently against total `300.00` and draw one error
against `300.02`. -/
theorem c6_reconciliation :
    (∀ (data : RawRecord) (r : VResult), validar_factura data = .ok r →
        (r.errores.filter (fun e => e.campo == reconLabel)).length = reconExpectedCount data)
    ∧ (validar_factura recTotal300).map
        (fun r => (r.errores.filter (fun e => e.campo == reconLabel)).length) = .ok 0
    ∧ (validar_factura recTotal30002).map
        (fun r => (r.errores.filter (fun e => e.campo == reconLabel)).length) = .ok 1 := by
  refine ⟨?_, by decide, by decide⟩
  intro data r h
  simp only [validar_factura] at h
  obtain ⟨errH, hH, h2⟩ := except_bind_ok h
  simp only [pure, Except.pure, Except.ok.injEq] at h2
  subst h2
  simp only [validar_items, List.filter_append, List.length_append]
  have hHnil : (errH.filter (fun e => e.campo == reconLabel)) = [] := by
    rw [List.filter_eq_nil_iff]
    intro a ha
    obtain ⟨g, _, hcampo⟩ := collect_campo_mem (normCampos data) headerFields errH hH a ha
    simp only [beq_iff_eq]
    rw [hcampo]
    exact fieldLabel_ne_recon g
  have hInil : ((itemsPhase (selectItems data)
      (dictGet (normCampos data) ("Currency" : String))).1.filter
        (fun e => e.campo == reconLabel)) = [] := by
    rw [List.filter_eq_nil_iff]
    intro a ha
    have hpar := itemsLoop_campo (dictGet (normCampos data) ("Currency" : String))
      (selectItems data) 1 ItemLocals.init ⟨0, 0⟩ a ha
    simp only [beq_iff_eq]
    intro hc
    rw [hc] at hpar
    exact paren_not_mem_recon hpar
  rw [hHnil, hInil]
  simp only [List.length_nil, Nat.zero_add]
  unfold reconExpectedCount reconcilePhase
  cases totalFacturaVal (normCampos data) with
  | none => rfl
  | some t =>
    split <;> first | rfl | (split <;> simp)

/-- Witness for C6: the record with matching total `300.00` instantiates
the general reconciliation count statement. -/
theorem c6_reconciliation_witness :
    ∃ r : VResult, validar_factura recTotal300 = .ok r ∧
      (r.errores.filter (fun e => e.campo == reconLabel)).length =
        reconExpectedCount recTotal300 := by
  refine ⟨_, rfl, ?_⟩
  exact c6_reconciliation.1 recTotal300 _ rfl

/-- C1 evaluation: in the two-item sequence where the second item has no
`Quantity` of its own, the engine still emits an arithmetic-mismatch
error for product 2 — the loop locals keep item 1's `qty_val = 2`, so
`2 * 5 = 10` is compared against `100`.  Under the claim (all three of
the item's own values must have parsed) no arithmetic error may appear
for product 2.  The claim's boundary examples do hold: `50.01` against
`10 * 5.00` differs by exactly `0.01` and is silent, `50.02` errors. -/
theorem c1_stale_locals_eval :
    dictGet c1Item2 ("Quantity" : String) = .vnone
    ∧ (validar_items [c1Item1, c1Item2] .vnone none).filter (fun e => e.kind == EKind.arith) =
        [⟨prodLabel ("Valor Total Ítem" : String) 2, .arith⟩]
    ∧ (validar_items [c1Item1] .vnone none).filter (fun e => e.kind == EKind.arith) = []
    ∧ (validar_items [[(("Quantity" : String), .vstr ("10")), (("UnitPrice" : String), .vstr ("5.00")),
        (("NetValuePerItem" : String), .vstr ("50.01"))]] .vnone none).filter
        (fun e => e.kind == EKind.arith) = []
    ∧ (validar_items [[(("Quantity" : String), .vstr ("10")), (("UnitPrice" : String), .vstr ("5.00")),
        (("NetValuePerItem" : String), .vstr ("50.02"))]] .vnone none).filter
        (fun e => e.kind == EKind.arith) =
        [⟨prodLabel ("Valor Total Ítem" : String) 1, .arith⟩] := by
  decide

/-- C2 evaluation: the empty second item (no `NetValuePerItem`,
`Quantity` or `UnitPrice` at all) re-adds item 1's stale subtotal `50`,
driving the running sum to `100` instead of `50`; reconciliation against
a declared total of `100` is then silent.  A first item with absent
subtotal but parsed quantity and price also contributes nothing (the
`UnboundLocalError` on the never-assigned `subtotal_val` is swallowed),
where the claim's fallback demands `2 * 3 = 6`. -/
theorem c2_stale_sum_eval :
    (itemsPhase [c2Item1, []] .vnone).2 = ⟨100, 0⟩
    ∧ (itemsPhase [c2Item1] .vnone).2 = ⟨50, 0⟩
    ∧ (validar_items [c2Item1, []] .vnone (some ⟨100, 0⟩)).filter
        (fun e => e.campo == reconLabel) = []
    ∧ (validar_items [c2Item1, []] .vnone (some ⟨50, 0⟩)).filter
        (fun e => e.campo == reconLabel) = [⟨reconLabel, .reconcile⟩]
    ∧ (itemsPhase [[(("Quantity" : String), .vstr ("2")), (("UnitPrice" : String), .vstr ("3"))]]
        .vnone).2 = ⟨0, 0⟩ := by
  decide

/-- C3 evaluation: a record whose `InvoiceDate` is the number `5` makes
`es_fecha_valida` call `.strip()` on a float, and the `AttributeError`
escapes `validar_factura` instead of becoming a `ValidationError`. -/
theorem c3_engine_raises_eval :
    validar_factura ⟨none, none, none, none, [(("InvoiceDate" : String), .vnum ⟨5, 0⟩)]⟩ =
      .error .attributeError
    ∧ es_fecha_valida (.vnum ⟨5, 0⟩) = .error .attributeError := by
  decide

/-- C10: a record without a `Fields` entry is validated with its own
top-level entries as the header mapping, identically to wrapping the same
mapping under `Fields`. -/
theorem c10_top_level_header :
    ∀ (top extra : PyDict) (tb it pr : Option (List PyDict)),
      validar_factura ⟨none, tb, it, pr, top⟩ =
        validar_factura ⟨some (.fdict top), tb, it, pr, extra⟩
      ∧ normCampos ⟨none, tb, it, pr, top⟩ = top
      ∧ normCampos ⟨some (.fdict top), tb, it, pr, extra⟩ = top := by
  intro top extra tb it pr
  exact ⟨rfl, rfl, rfl⟩

/-- A well-formed synonym pair (truthy key and value) resolves through the
`or`-chains to exactly its key and value. -/
theorem synPair_resolve (p : SynPair) (hk : p.key ≠ ("" : String)) (hv : truthy p.val = true) :
    pairKey (SynPair.toDict p) = .vstr p.key ∧ pairValue (SynPair.toDict p) = p.val := by
  obtain ⟨ks, key, vs, val⟩ := p
  simp only at hk hv
  cases ks <;> cases vs <;>
    constructor <;>
      simp [SynPair.toDict, keySynStr, valSynStr, pairKey, pairValue, pyOr, dictGet,
        truthy, hk, hv] <;>
      · intro hfalse
        cases val with
        | vnone => rfl
        | vstr s =>
          simp [truthy] at hv
          simp at hfalse
          exact absurd hfalse hv
        | vnum q =>
          simp [truthy] at hv
          simp at hfalse
          exact absurd hfalse hv

/-- Folding the pair objects of well-formed synonym pairs builds exactly
the direct header mapping. -/
theorem normCampos_syn_fold (ps : List SynPair) :
    ∀ acc : PyDict, (∀ p ∈ ps, p.key ≠ ("" : String) ∧ truthy p.val = true) →
      ((ps.map SynPair.toDict).foldl (fun campos item =>
        match pairKey item with
        | .vstr k => if k ≠ ("" : String) then dictSet campos k (pairValue item) else campos
        | _ => campos) acc)
      = ps.foldl (fun d p => dictSet d p.key p.val) acc := by
  induction ps with
  | nil => intro acc _; rfl
  | cons p rest ih =>
    intro acc h
    have hp := h p (List.mem_cons_self p rest)
    obtain ⟨hkey, hval⟩ := synPair_resolve p hp.1 hp.2
    simp only [List.map_cons, List.foldl_cons, hkey, hval]
    rw [if_pos hp.1]
    exact ih (dictSet acc p.key p.val) (fun q hq => h q (List.mem_cons_of_mem p hq))

/-- C8 (amended): validating a `Fields` list of synonym-keyed pair objects
equals validating the equivalent direct mapping, provided each pair's
resolved key is a nonempty string and its resolved value is truthy (a
falsy value such as `0.0` or `""` under an earlier synonym falls through
the Python `or`-chain). -/
theorem c8_fields_list_equiv :
    ∀ (ps : List SynPair) (tb it pr : Option (List PyDict)) (top1 top2 : PyDict),
      (∀ p ∈ ps, p.key ≠ ("" : String) ∧ truthy p.val = true) →
      validar_factura ⟨some (.flist (ps.map SynPair.toDict)), tb, it, pr, top1⟩ =
        validar_factura ⟨some (.fdict (pairsToDict ps)), tb, it, pr, top2⟩ := by
  intro ps tb it pr top1 top2 h
  have hc : normCampos ⟨some (.flist (ps.map SynPair.toDict)), tb, it, pr, top1⟩ =
      normCampos ⟨some (.fdict (pairsToDict ps)), tb, it, pr, top2⟩ := by
    simp only [normCampos, pairsToDict]
    exact normCampos_syn_fold ps [] h
  simp only [validar_factura, hc]
  rfl

/-- C8 counterexample: the pair object `{"Field": "Currency", "Value": 0.0}`
is, per the claim, equivalent to the direct mapping `{"Currency": 0.0}`;
the code resolves the falsy `0.0` to `None` and reports `Moneda` as
missing, while the direct mapping reports a `Moneda` format error, so the
two validation results differ. -/
theorem c8_fields_list_counterexample :
    validar_factura recC8Pairs ≠ validar_factura recC8Direct
    ∧ (validar_factura recC8Pairs).map
        (fun r => r.errores.filter (fun e => e.campo == ("Moneda" : String))) =
        .ok [⟨("Moneda" : String), .missing⟩]
    ∧ (validar_factura recC8Direct).map
        (fun r => r.errores.filter (fun e => e.campo == ("Moneda" : String))) =
        .ok [⟨("Moneda" : String), .format⟩] := by
  decide

/-- Witness for C8: the spec's own example — a `Fields` list holding
`{"Field": "Currency", "Valor": "USD"}` validates exactly like the
direct mapping `{"Currency": "USD"}`. -/
theorem c8_fields_list_equiv_witness :
    validar_factura ⟨some (.flist [[(("Field" : String), .vstr ("Currency")),
        (("Valor" : String), .vstr ("USD"))]]), none, none, none, []⟩ =
      validar_factura ⟨some (.fdict [(("Currency" : String), .vstr ("USD"))]),
        none, none, none, []⟩ :=
  c8_fields_list_equiv [⟨.kField, ("Currency" : String), .sValor, .vstr ("USD")⟩]
    none none none [] [] (by decide)

/-- A split on a character absent from the list yields the whole list. -/
theorem splitOnCharAux_no (c : Char) :
    ∀ (cs acc : List Char), c ∉ cs → splitOnCharAux c cs acc = [acc.reverse ++ cs] := by
  intro cs
  induction cs with
  | nil => intro acc _; simp [splitOnCharAux]
  | cons x xs ih =>
    intro acc h
    have hx : x ≠ c := fun hc => h (hc ▸ List.mem_cons_self x xs)
    have hxs : c ∉ xs := fun hc => h (List.mem_cons_of_mem x hc)
    simp only [splitOnCharAux, if_neg hx]
    rw [ih (x :: acc) hxs]
    simp

/-- Python `split` on an absent separator. -/
theorem splitOnChar_no {c : Char} {cs : List Char} (h : c ∉ cs) : splitOnChar cs c = [cs] := by
  unfold splitOnChar
  rw [splitOnCharAux_no c cs [] h]
  rfl

/-- Splitting walks past a separator-free prefix. -/
theorem splitOnCharAux_mid (c : Char) :
    ∀ (ip rest acc : List Char), c ∉ ip →
      splitOnCharAux c (ip ++ c :: rest) acc = (acc.reverse ++ ip) :: splitOnCharAux c rest [] := by
  intro ip
  induction ip with
  | nil =>
    intro rest acc _
    simp [splitOnCharAux]
  | cons x xs ih =>
    intro rest acc h
    have hx : x ≠ c := fun hc => h (hc ▸ List.mem_cons_self x xs)
    have hxs : c ∉ xs := fun hc => h (List.mem_cons_of_mem x hc)
    simp only [List.cons_append, splitOnCharAux, if_neg hx, List.append_eq]
    rw [ih rest (x :: acc) hxs]
    simp

/-- Python `split` on a string with exactly one separator occurrence. -/
theorem splitOnChar_pair {c : Char} {ip fp : List Char} (h1 : c ∉ ip) (h2 : c ∉ fp) :
    splitOnChar (ip ++ c :: fp) c = [ip, fp] := by
  unfold splitOnChar
  rw [splitOnCharAux_mid c ip fp [] h1]
  rw [splitOnCharAux_no c fp [] h2]
  rfl

/-- The number of split fragments is the separator count plus one. -/
theorem splitOnChar_length (c : Char) :
    ∀ cs : List Char, (splitOnChar cs c).length = cs.count c + 1 := by
  have aux : ∀ cs acc : List Char, (splitOnCharAux c cs acc).length = cs.count c + 1 := by
    intro cs
    induction cs with
    | nil => intro acc; simp [splitOnCharAux]
    | cons x xs ih =>
      intro acc
      by_cases hx : x = c
      · subst hx
        simp [splitOnCharAux, ih, List.count_cons_self]
      · simp only [splitOnCharAux, if_neg hx, ih]
        rw [List.count_cons_of_ne (Ne.symm hx)]
  intro cs
  exact aux cs []

/-- Replacing commas by dots is the identity on comma-free fragments. -/
theorem map_commaToDot_id {cs : List Char} (h : ',' ∉ cs) : cs.map commaToDot = cs := by
  induction cs with
  | nil => rfl
  | cons x xs ih =>
    have hx : x ≠ ',' := fun hc => h (hc ▸ List.mem_cons_self x xs)
    have hxs : ',' ∉ xs := fun hc => h (List.mem_cons_of_mem x hc)
    simp [commaToDot, hx, ih hxs]

/-- Removing an absent character is the identity. -/
theorem filter_ne_id {c : Char} {cs : List Char} (h : c ∉ cs) :
    cs.filter (fun x => x ≠ c) = cs := by
  induction cs with
  | nil => rfl
  | cons x xs ih =>
    have hx : x ≠ c := fun hc => h (hc ▸ List.mem_cons_self x xs)
    have hxs : c ∉ xs := fun hc => h (List.mem_cons_of_mem x hc)
    simp only [List.filter_cons]
    rw [if_pos (by simp [hx]), ih hxs]

/-- A digit-only fragment is a valid CPython `digitpart` continuation. -/
theorem digitsRest_digits :
    ∀ cs : List Char, cs.all isDig = true → ∀ acc cnt : Nat,
      ∃ vk, digitsRest acc cnt cs = some vk := by
  intro cs
  induction cs with
  | nil => intro _ acc cnt; exact ⟨(acc, cnt), rfl⟩
  | cons c rest ih =>
    intro h acc cnt
    rw [List.all_cons, Bool.and_eq_true] at h
    have hu : c ≠ '_' := by
      intro hc
      rw [hc] at h
      exact absurd h.1 (by decide)
    rw [digitsRest.eq_def]
    simp only [if_neg hu, if_pos h.1]
    exact ih h.2 _ _

/-- A nonempty digit-only fragment is a valid `digitpart`. -/
theorem digitsVal_digits {cs : List Char} (h1 : cs ≠ []) (h2 : cs.all isDig = true) :
    ∃ vk, digitsVal cs = some vk := by
  cases cs with
  | nil => exact absurd rfl h1
  | cons c rest =>
    rw [List.all_cons, Bool.and_eq_true] at h2
    simp only [digitsVal, if_pos h2.1]
    exact digitsRest_digits rest h2.2 _ _

/-- Characters that fail a test are absent from an all-true list. -/
theorem not_mem_of_all_dig {cs : List Char} (h : cs.all isDig = true)
    {c : Char} (hc : isDig c = false) : c ∉ cs := by
  intro hmem
  rw [List.all_eq_true] at h
  rw [h c hmem] at hc
  exact absurd hc (by decide)

/-- The exponent-marker normalization is the identity on digit strings. -/
theorem mapE_id_of_digits : ∀ {cs : List Char}, cs.all isDig = true →
    cs.map (fun c => if c = 'E' then 'e' else c) = cs := by
  intro cs
  induction cs with
  | nil => intro _; rfl
  | cons x xs ih =>
    intro h
    rw [List.all_cons, Bool.and_eq_true] at h
    have hx : x ≠ 'E' := by
      intro hc
      rw [hc] at h
      exact absurd h.1 (by decide)
    simp only [List.map_cons, if_neg hx]
    rw [ih h.2]

/-- CPython `float` on a nonempty all-digit string returns its integer
value exactly. -/
theorem floatOfChars_digits (cs : List Char) (h1 : cs ≠ []) (h2 : cs.all isDig = true) :
    floatOfChars cs = some ⟨(((digitsVal cs).getD (0, 0)).1 : Int), 0⟩ := by
  obtain ⟨vk, hvk⟩ := digitsVal_digits h1 h2
  have hsign : floatSign cs = (1, cs) := by
    cases cs with
    | nil => exact absurd rfl h1
    | cons c r =>
      rw [List.all_cons, Bool.and_eq_true] at h2
      have hplus : c ≠ '+' := by
        intro hc
        rw [hc] at h2
        exact absurd h2.1 (by decide)
      have hminus : c ≠ '-' := by
        intro hc
        rw [hc] at h2
        exact absurd h2.1 (by decide)
      simp [floatSign, hplus, hminus]
  have hnoe : 'e' ∉ cs := not_mem_of_all_dig h2 (by decide)
  have hnodot : '.' ∉ cs := not_mem_of_all_dig h2 (by decide)
  simp [floatOfChars, floatMantissa, hsign, mapE_id_of_digits h2, splitOnChar_no hnoe,
    splitOnChar_no hnodot, hvk, mkPyFloat]

/-- CPython `float` on a minus sign followed by digits returns the
negated integer value. -/
theorem floatOfChars_neg_digits (r : List Char) (h1 : r ≠ []) (h2 : r.all isDig = true) :
    floatOfChars ('-' :: r) = some ⟨-(((digitsVal r).getD (0, 0)).1 : Int), 0⟩ := by
  obtain ⟨vk, hvk⟩ := digitsVal_digits h1 h2
  have hsign : floatSign ('-' :: r) = (-1, r) := by
    simp [floatSign]
  have hnoe : 'e' ∉ r := not_mem_of_all_dig h2 (by decide)
  have hnodot : '.' ∉ r := not_mem_of_all_dig h2 (by decide)
  simp [floatOfChars, floatMantissa, hsign, mapE_id_of_digits h2, splitOnChar_no hnoe,
    splitOnChar_no hnodot, hvk, mkPyFloat]

/-- C5: `parse_numeric` implements the specified disambiguation — with
both separators present the later one is decimal and the other is
stripped; with only commas, a single comma followed by an at-most-2-digit
fragment is decimal and otherwise all commas are stripped; with no
separator only `-?\d+` strings parse (to their integer value); empty or
absent input fails; and the spec's concrete examples evaluate as
stated. -/
theorem c5_parse_numeric :
    ((parse_numeric (.vstr ("1.234,56"))).map PyFloat.toRat = some ((1234.56 : ℚ))
      ∧ (parse_numeric (.vstr ("1,234.56"))).map PyFloat.toRat = some ((1234.56 : ℚ))
      ∧ (parse_numeric (.vstr ("123,45"))).map PyFloat.toRat = some ((123.45 : ℚ))
      ∧ (parse_numeric (.vstr ("1,234,567"))).map PyFloat.toRat = some ((1234567 : ℚ))
      ∧ (parse_numeric (.vstr ("12345.67"))).map PyFloat.toRat = some ((12345.67 : ℚ))
      ∧ parse_numeric (.vstr ("abc")) = none
      ∧ parse_numeric (.vstr ("")) = none
      ∧ parse_numeric .vnone = none)
    ∧ (∀ s : String, trimChars s.data = [] → parse_numeric (.vstr s) = none)
    ∧ (∀ s : String, 0 < (trimChars s.data).count ',' → 0 < (trimChars s.data).count '.' →
        parse_numeric (.vstr s) =
          (if lastIndexOf (trimChars s.data) '.' < lastIndexOf (trimChars s.data) ',' then
            floatOfChars (((trimChars s.data).filter (fun c => c ≠ '.')).map commaToDot)
          else floatOfChars ((trimChars s.data).filter (fun c => c ≠ ','))))
    ∧ (∀ (s : String) (ip fp : List Char), trimChars s.data = ip ++ ',' :: fp →
        ',' ∉ ip → ',' ∉ fp → '.' ∉ ip → '.' ∉ fp → fp.all isDig = true → fp.length ≤ 2 →
        parse_numeric (.vstr s) = floatOfChars (ip ++ '.' :: fp))
    ∧ (∀ (s : String) (ip fp : List Char), trimChars s.data = ip ++ ',' :: fp →
        ',' ∉ ip → ',' ∉ fp → '.' ∉ ip → '.' ∉ fp → fp.all isDig = true → 2 < fp.length →
        parse_numeric (.vstr s) = floatOfChars (ip ++ fp))
    ∧ (∀ s : String, 2 ≤ (trimChars s.data).count ',' → (trimChars s.data).count '.' = 0 →
        parse_numeric (.vstr s) = floatOfChars ((trimChars s.data).filter (fun c => c ≠ ',')))
    ∧ (∀ s : String, trimChars s.data ≠ [] →
        (trimChars s.data).count ',' = 0 → (trimChars s.data).count '.' = 0 →
        (intRegexMatch (trimChars s.data) = false → parse_numeric (.vstr s) = none)
        ∧ (intRegexMatch (trimChars s.data) = true →
            parse_numeric (.vstr s) = some ⟨intCharsVal (trimChars s.data), 0⟩)) := by
  refine ⟨⟨?_, ?_, ?_, ?_, ?_, by decide, by decide, by decide⟩, ?_, ?_, ?_, ?_, ?_, ?_⟩
  · rw [show parse_numeric (.vstr ("1.234,56")) = some ⟨123456, 2⟩ from by decide]
    simp [PyFloat.toRat]
    norm_num
  · rw [show parse_numeric (.vstr ("1,234.56")) = some ⟨123456, 2⟩ from by decide]
    simp [PyFloat.toRat]
    norm_num
  · rw [show parse_numeric (.vstr ("123,45")) = some ⟨12345, 2⟩ from by decide]
    simp [PyFloat.toRat]
    norm_num
  · rw [show parse_numeric (.vstr ("1,234,567")) = some ⟨1234567, 0⟩ from by decide]
    simp [PyFloat.toRat]
  · rw [show parse_numeric (.vstr ("12345.67")) = some ⟨1234567, 2⟩ from by decide]
    simp [PyFloat.toRat]
    norm_num
  · intro s h
    simp only [parse_numeric]
    rw [if_pos h]
  · intro s hc hd
    have hne : trimChars s.data ≠ [] := by
      intro h0
      rw [h0] at hc
      simp at hc
    simp only [parse_numeric]
    rw [if_neg hne, if_pos (And.intro hc hd)]
  · intro s ip fp hdec hcip hcfp hdip hdfp _ hlen
    have hne : trimChars s.data ≠ [] := by
      rw [hdec]
      simp
    have hdot : (trimChars s.data).count '.' = 0 := by
      rw [hdec]
      simp [List.count_append, List.count_cons, List.count_eq_zero.mpr hdip,
        List.count_eq_zero.mpr hdfp]
    have hcomma : 0 < (trimChars s.data).count ',' := by
      rw [hdec]
      simp [List.count_append, List.count_cons]
    simp only [parse_numeric]
    rw [if_neg hne,
      if_neg (fun hand => by rw [hdot] at hand; exact Nat.lt_irrefl 0 hand.2),
      if_pos hcomma, hdec, splitOnChar_pair hcip hcfp]
    dsimp only
    rw [if_pos hlen, List.map_append, map_commaToDot_id hcip, List.map_cons,
      map_commaToDot_id hcfp]
    rfl
  · intro s ip fp hdec hcip hcfp hdip hdfp _ hlen
    have hne : trimChars s.data ≠ [] := by
      rw [hdec]
      simp
    have hdot : (trimChars s.data).count '.' = 0 := by
      rw [hdec]
      simp [List.count_append, List.count_cons, List.count_eq_zero.mpr hdip,
        List.count_eq_zero.mpr hdfp]
    have hcomma : 0 < (trimChars s.data).count ',' := by
      rw [hdec]
      simp [List.count_append, List.count_cons]
    simp only [parse_numeric]
    rw [if_neg hne,
      if_neg (fun hand => by rw [hdot] at hand; exact Nat.lt_irrefl 0 hand.2),
      if_pos hcomma, hdec, splitOnChar_pair hcip hcfp]
    dsimp only
    rw [if_neg (by omega), List.filter_append, filter_ne_id hcip]
    have hhead : ((',' :: fp).filter (fun x => x ≠ ',')) = fp := by
      simp only [List.filter_cons]
      rw [if_neg (by simp), filter_ne_id hcfp]
    rw [hhead]
  · intro s hc2 hd0
    have hne : trimChars s.data ≠ [] := by
      intro h0
      rw [h0] at hc2
      simp at hc2
    simp only [parse_numeric]
    rw [if_neg hne,
      if_neg (fun hand => by rw [hd0] at hand; exact Nat.lt_irrefl 0 hand.2),
      if_pos (by omega)]
    have hlen := splitOnChar_length ',' (trimChars s.data)
    rcases hsp : splitOnChar (trimChars s.data) ',' with _ | ⟨a, _ | ⟨b, _ | ⟨c0, t⟩⟩⟩ <;>
      rw [hsp] at hlen <;>
      first
      | rfl
      | (exfalso; simp at hlen; omega)
  · intro s hne hc0 hd0
    have hred : parse_numeric (.vstr s) =
        (if intRegexMatch (trimChars s.data) then floatOfChars (trimChars s.data) else none) := by
      simp only [parse_numeric]
      rw [if_neg hne,
        if_neg (fun hand => by rw [hd0] at hand; exact Nat.lt_irrefl 0 hand.2),
        if_neg (fun hand => by rw [hc0] at hand; exact Nat.lt_irrefl 0 hand),
        if_neg (fun hand => by rw [hd0] at hand; exact Nat.lt_irrefl 0 hand)]
    constructor
    · intro hreg
      rw [hred, hreg]
      rfl
    · intro hreg
      rw [hred, hreg, if_pos rfl]
      rcases hcs : trimChars s.data with _ | ⟨c, r⟩
      · exact absurd hcs hne
      · rw [hcs] at hreg
        by_cases hcminus : c = '-'
        · subst hcminus
          rw [intRegexMatch] at hreg
          rw [if_pos rfl] at hreg
          simp only [Bool.decide_and, Bool.and_eq_true, decide_eq_true_eq] at hreg
          rw [floatOfChars_neg_digits r hreg.1 hreg.2]
          simp [intCharsVal]
        · rw [intRegexMatch, if_neg hcminus] at hreg
          rw [floatOfChars_digits (c :: r) (by simp) hreg]
          simp [intCharsVal, hcminus]

/-- Witness for C5: the decimal-comma rule applied to `"9,5"` and the
integer rule applied to `"-42"`. -/
theorem c5_parse_numeric_witness :
    parse_numeric (.vstr ("9,5")) = floatOfChars (['9'] ++ '.' :: ['5'])
    ∧ parse_numeric (.vstr ("-42")) = some ⟨intCharsVal (trimChars ("-42" : String).data), 0⟩ :=
  ⟨c5_parse_numeric.2.2.2.1 ("9,5") ['9'] ['5'] (by decide) (by decide) (by decide)
      (by decide) (by decide) (by decide) (by decide),
    (c5_parse_numeric.2.2.2.2.2.2 ("-42") (by decide) (by decide) (by decide)).2 (by decide)⟩
